import Mathlib

/-!
Shallow embedding of `src/s3_cleaner.py` (class `S3Cleaner`).

The Python code drives a `ThreadPoolExecutor`: a single driving thread paginates
the bucket listing, submits delete batches (or copy tasks) to the pool, and then
drains the futures with `as_completed`.  We model this with explicit state
passing:

* the paginated listing is an `Except String (List Page)` — `Except.error`
  models the pagination call raising `ClientError` (caught by the surrounding
  `try`, which returns `False`);
* the cooperative cancel flag is modelled by `cancelAt : Option Nat`, the index
  of the first checkpoint read at which `cancel_flag()` returns true (the flag
  is written once by the caller and is monotone); checkpoint reads are numbered
  in program order: one read at the top of each page iteration, then one read
  before each completion is processed;
* the `as_completed` arrival order is an explicit parameter `arrival` (theorems
  hypothesise that it is a permutation of the submitted batches);
* which submitted futures had already started executing when cancellation was
  observed is a scheduling oracle `started : Nat → Bool` (Python's
  `Future.cancel()` succeeds exactly on futures that have not started; started
  futures run to completion because `ThreadPoolExecutor.__exit__` waits);
* `pause_flag` is modelled as absent (`None` in Python), so the pause busy-wait
  loop never executes.
-/

namespace CleanAwsS3

/-- One deletable unit: an object key, with a version id only on the
versioned-bucket path (`{'Key': …}` vs `{'Key': …, 'VersionId': …}`). -/
structure WorkItem where
  key : String
  versionId : Option String
deriving DecidableEq

/-- The store's answer to `delete_objects`: the `Deleted` list and the
`Errors` list (key, message). -/
structure DeleteResponse where
  deleted : List String
  errors : List (String × String)
deriving DecidableEq

/-- Behaviour of `s3_client.delete_objects` for one batch: either a response or
a raised exception. -/
abbrev Store := List WorkItem → Except String DeleteResponse

/-- `_delete_batch`: calls `delete_objects`, returns `len(response['Deleted'])`;
any exception is caught and `0` is returned (errors are only logged). -/
def delete_batch (store : Store) (b : List WorkItem) : Nat :=
  match store b with
  | Except.ok r => r.deleted.length
  | Except.error _ => 0

/-- `lst[i:i+1000]` slicing loop `for i in range(0, len(lst), 1000)`:
one slice per loop index, `⌈len/1000⌉` indices in total. -/
def chunk1000 (l : List α) : List (List α) :=
  (List.range ((l.length + 999) / 1000)).map (fun i => (l.drop (1000 * i)).take 1000)

/-- Read of `cancel_flag()` at checkpoint `k`: true iff the flag was set at or
before read index `k`. -/
def isCancelled (cancelAt : Option Nat) (k : Nat) : Bool :=
  match cancelAt with
  | none => false
  | some c => decide (c ≤ k)

/-- Driving-thread state while iterating `paginator.paginate(...)`:
checkpoint-read clock, `pages_processed`, and the submitted futures (the batch
each future will delete), in submission order. -/
structure LoopSt where
  k : Nat
  pagesProcessed : Nat
  futures : List (List WorkItem)
deriving DecidableEq

/-- One non-cancelled iteration of the page loop: `pages_processed += 1`; if the
page yields no items, `continue`; otherwise split the page's items into batches
of 1000 and submit each (`executor.submit(self._delete_batch, …)`). -/
def pageStep (toItems : P → List WorkItem) (s : LoopSt) (page : P) : LoopSt :=
  let s1 : LoopSt := { s with k := s.k + 1, pagesProcessed := s.pagesProcessed + 1 }
  if (toItems page).isEmpty then s1
  else { s1 with futures := s1.futures ++ chunk1000 (toItems page) }

/-- The page loop with its cancellation checkpoint at the top of each
iteration; returns `true` iff cancellation was observed there. -/
def pageLoop (toItems : P → List WorkItem) (cancelAt : Option Nat) :
    List P → LoopSt → Bool × LoopSt
  | [], s => (false, s)
  | page :: rest, s =>
    if isCancelled cancelAt s.k then (true, s)
    else pageLoop toItems cancelAt rest (pageStep toItems s page)

/-- The `for future in as_completed(futures)` drain loop: checkpoint before
each completion, then `deleted_count += future.result()` and
`completed_batches += 1`.  `arrival` is the completion order; returns
(cancel observed, deleted_count, completed_batches). -/
def drain (store : Store) (cancelAt : Option Nat) :
    List (List WorkItem) → Nat → Nat → Nat → Bool × Nat × Nat
  | [], _, d, cb => (false, d, cb)
  | b :: rest, k, d, cb =>
    if isCancelled cancelAt k then (true, d, cb)
    else drain store cancelAt rest (k + 1) (d + delete_batch store b) (cb + 1)

/-- Observable outcome of one `_clean_*_bucket` run.  `success` is the Python
return value; the other fields are the run's local counters, the submitted
batches, and — for the concurrency claims — which future indices were aborted
by `future.cancel()` while still pending versus ran to completion. -/
structure RunResult where
  success : Bool
  deletedCount : Nat
  pagesProcessed : Nat
  batchesCreated : Nat
  completedBatches : Nat
  submittedBatches : List (List WorkItem)
  abortedBatches : List Nat
  finishedBatches : List Nat
deriving DecidableEq

/-- `_clean_non_versioned_bucket` / `_clean_versioned_bucket` (they differ only
in how a page is flattened into work items, abstracted as `toItems`):

* a failing paginator (`Except.error`) is caught by `except ClientError` and
  the function returns `False`;
* cancellation observed at a page checkpoint cancels every pending future
  (`future.cancel()`) and returns `False`; futures that had already started
  keep running to completion while `ThreadPoolExecutor.__exit__` waits;
* cancellation observed in the drain loop returns `False` without cancelling
  anything, so every submitted future still runs to completion;
* otherwise the drain finishes and the function returns `True`.

`runCleanOk` is the body after the paginator has been obtained successfully;
`runClean` below adds the `except ClientError` path. -/
def runCleanOk (toItems : P → List WorkItem) (store : Store) (pages : List P)
    (cancelAt : Option Nat) (arrival : List (List WorkItem))
    (started : Nat → Bool) : RunResult :=
  let pl := pageLoop toItems cancelAt pages ⟨0, 0, []⟩
  if pl.1 then
    { success := false, deletedCount := 0, pagesProcessed := pl.2.pagesProcessed,
      batchesCreated := pl.2.futures.length, completedBatches := 0,
      submittedBatches := pl.2.futures,
      abortedBatches := (List.range pl.2.futures.length).filter (fun i => !started i),
      finishedBatches := (List.range pl.2.futures.length).filter (fun i => started i) }
  else
    let dr := drain store cancelAt arrival pl.2.k 0 0
    { success := !dr.1, deletedCount := dr.2.1, pagesProcessed := pl.2.pagesProcessed,
      batchesCreated := pl.2.futures.length, completedBatches := dr.2.2,
      submittedBatches := pl.2.futures, abortedBatches := [],
      finishedBatches := List.range pl.2.futures.length }

/-- `_clean_non_versioned_bucket` / `_clean_versioned_bucket` including the
`except ClientError` wrapper around the pagination: a failing paginator yields
`False` with nothing submitted. -/
def runClean (toItems : P → List WorkItem) (store : Store)
    (listing : Except String (List P)) (cancelAt : Option Nat)
    (arrival : List (List WorkItem)) (started : Nat → Bool) : RunResult :=
  match listing with
  | Except.error _ =>
    { success := false, deletedCount := 0, pagesProcessed := 0,
      batchesCreated := 0, completedBatches := 0, submittedBatches := [],
      abortedBatches := [], finishedBatches := [] }
  | Except.ok pages => runCleanOk toItems store pages cancelAt arrival started

/-- Flattening of a plain-listing page: every `Contents` entry becomes
`{'Key': obj['Key']}` — no version id. -/
def nvItems (page : List String) : List WorkItem :=
  page.map (fun k => ⟨k, none⟩)

/-- One page of `list_object_versions`: the `Versions` entries and the
`DeleteMarkers` entries, each a (key, versionId) pair. -/
structure VPage where
  versions : List (String × String)
  deleteMarkers : List (String × String)
deriving DecidableEq

/-- Flattening of a versions-listing page: first the `Versions` entries, then
the `DeleteMarkers` entries, each as `{'Key': …, 'VersionId': …}`. -/
def vItems (p : VPage) : List WorkItem :=
  p.versions.map (fun v => ⟨v.1, some v.2⟩) ++
    p.deleteMarkers.map (fun m => ⟨m.1, some m.2⟩)

/-- The batches a full (uncancelled) run submits: each page's items cut into
slices of 1000, pages in order. -/
def batchesOf (toItems : P → List WorkItem) (pages : List P) : List (List WorkItem) :=
  (pages.map (fun p => chunk1000 (toItems p))).flatten

/-- `is_versioned`: `get_bucket_versioning(...).get('Status') == 'Enabled'`;
a raised `ClientError` is caught and `False` is returned. -/
def is_versioned (resp : Except String (Option String)) : Bool :=
  match resp with
  | Except.ok st => st == some "Enabled"
  | Except.error _ => false

/-- `clean_bucket`: verify the bucket exists (else `False`), probe versioning
once, then run the versioned or the non-versioned cleaner and return its
boolean result. -/
def clean_bucket (bexists : Bool) (vresp : Except String (Option String))
    (store : Store) (nvListing : Except String (List (List String)))
    (vListing : Except String (List VPage)) (cancelAt : Option Nat)
    (nvArrival vArrival : List (List WorkItem)) (started : Nat → Bool) : Bool :=
  if !bexists then false
  else if is_versioned vresp then
    (runClean vItems store vListing cancelAt vArrival started).success
  else
    (runClean nvItems store nvListing cancelAt nvArrival started).success

/-- Result of `count_objects`. -/
structure Counts where
  objects : Nat
  versions : Nat
  delete_markers : Nat
deriving DecidableEq

/-- `count_objects` over already-successful listings: count `Contents` across
the plain pages, and — only if `is_versioned` — count `Versions` and
`DeleteMarkers` across the versions pages. -/
def count_objects (plainPages : List (List String))
    (vresp : Except String (Option String)) (vpages : List VPage) : Counts :=
  { objects := (plainPages.map List.length).sum,
    versions :=
      if is_versioned vresp then (vpages.map (fun p => p.versions.length)).sum else 0,
    delete_markers :=
      if is_versioned vresp then (vpages.map (fun p => p.deleteMarkers.length)).sum else 0 }

/-- A fully succeeding store: every batch call reports every item deleted and
no errors. -/
def storeAllOk : Store := fun b => Except.ok ⟨b.map WorkItem.key, []⟩

/-- Python's `str.lstrip('/')` on a character list: drop every leading `'/'`. -/
def stripLeadSlash : List Char → List Char
  | [] => []
  | c :: cs => if c = '/' then stripLeadSlash cs else c :: cs

/-- Python's `str.strip('/')`: drop every leading and every trailing `'/'`. -/
def pyStrip (s : String) : String :=
  String.mk ((stripLeadSlash (stripLeadSlash s.toList).reverse).reverse)

/-- Destination-key computation inlined in `copy_objects`'s page loop, composed
with the normalisation `source_prefix.strip('/')` / `dest_prefix.strip('/')`
done once at the top of `copy_objects`:

* if the (normalised) source prefix is non-empty,
  `relative_key = source_key[len(source_prefix):].lstrip('/')`,
  else `relative_key = source_key`;
* if the (normalised) destination prefix is non-empty,
  `dest_key = f"{dest_prefix}/{relative_key}"` when `relative_key` is
  non-empty else `dest_prefix`; otherwise `dest_key = relative_key`. -/
def dest_key_of (srcPre dstPre srcKey : String) : String :=
  let sp := pyStrip srcPre
  let dp := pyStrip dstPre
  let rel : String :=
    if sp ≠ "" then String.mk (stripLeadSlash (srcKey.toList.drop sp.length))
    else srcKey
  if dp ≠ "" then (if rel ≠ "" then dp ++ "/" ++ rel else dp) else rel

/-- Modelled from the spec (§4.4): "strip the source prefix from the source key
(after stripping any leading `/`), then, if a destination prefix is set, join
as `destPrefix + "/" + relativeKey` (or `destPrefix` alone if relativeKey is
empty); otherwise the destination key equals the relative key."  Takes the
prefixes as the engine hands them to the derivation, i.e. already
normalised. -/
def destKeySpec (sp dp srcKey : String) : String :=
  let rel : String :=
    if sp = "" then srcKey
    else String.mk (stripLeadSlash (srcKey.toList.drop sp.length))
  if dp = "" then rel else if rel = "" then dp else dp ++ "/" ++ rel

/-- Driving-thread state of `copy_objects`'s page loop: checkpoint clock,
`pages_processed`, and the submitted copy tasks (source key, destination key)
in submission order. -/
structure CopySt where
  k : Nat
  pagesProcessed : Nat
  tasks : List (String × String)
deriving DecidableEq

/-- One non-cancelled iteration of `copy_objects`'s page loop: a page without
`Contents` is skipped (before `pages_processed` is incremented); otherwise one
copy task per object is submitted, with the destination key computed inline. -/
def copyStep (srcPre dstPre : String) (s : CopySt) (page : List String) : CopySt :=
  let s1 : CopySt := { s with k := s.k + 1 }
  if page.isEmpty then s1
  else
    { s1 with
      pagesProcessed := s1.pagesProcessed + 1,
      tasks := s1.tasks ++ page.map (fun key => (key, dest_key_of srcPre dstPre key)) }

/-- `copy_objects` page loop with its cancellation checkpoint at the top of
each iteration. -/
def copyPageLoop (srcPre dstPre : String) (cancelAt : Option Nat) :
    List (List String) → CopySt → Bool × CopySt
  | [], s => (false, s)
  | page :: rest, s =>
    if isCancelled cancelAt s.k then (true, s)
    else copyPageLoop srcPre dstPre cancelAt rest (copyStep srcPre dstPre s page)

/-- `copy_objects` drain loop over `as_completed`: checkpoint before each
completion; a successful copy bumps `copied_count` and `completed_count`, a
failed one (`_copy_single_object` returned `False` — only logged) bumps
`completed_count` alone.
Returns (cancel observed, copied_count, completed_count). -/
def copyDrain (copyOk : String → Bool) (cancelAt : Option Nat) :
    List String → Nat → Nat → Nat → Bool × Nat × Nat
  | [], _, cp, cc => (false, cp, cc)
  | key :: rest, k, cp, cc =>
    if isCancelled cancelAt k then (true, cp, cc)
    else if copyOk key then copyDrain copyOk cancelAt rest (k + 1) (cp + 1) (cc + 1)
    else copyDrain copyOk cancelAt rest (k + 1) cp (cc + 1)

/-- Observable outcome of one `copy_objects` run. -/
structure CopyRun where
  success : Bool
  copiedCount : Nat
  tasks : List (String × String)
deriving DecidableEq

/-- Body of `copy_objects` after a successful paginator: cancellation observed
at a checkpoint returns `False`; otherwise `True`.  `copyOk key` is the result
of `_copy_single_object` for that source key (it catches every exception and
returns a boolean), and `arrival` is the `as_completed` order of source
keys. -/
def copyRunOk (srcPre dstPre : String) (pages : List (List String))
    (copyOk : String → Bool) (cancelAt : Option Nat) (arrival : List String) : CopyRun :=
  let pl := copyPageLoop srcPre dstPre cancelAt pages ⟨0, 0, []⟩
  if pl.1 then ⟨false, 0, pl.2.tasks⟩
  else
    let dr := copyDrain copyOk cancelAt arrival pl.2.k 0 0
    ⟨!dr.1, dr.2.1, pl.2.tasks⟩

/-- `copy_objects` top level: verify both buckets (else `False`); a failing
paginator is caught by the top-level `except` (`False`); then run the page
loop and the drain (`copyRunOk`). -/
def copy_objects (srcExists dstExists : Bool) (srcPre dstPre : String)
    (listing : Except String (List (List String))) (copyOk : String → Bool)
    (cancelAt : Option Nat) (arrival : List String) : CopyRun :=
  if !srcExists then ⟨false, 0, []⟩
  else if !dstExists then ⟨false, 0, []⟩
  else
    match listing with
    | Except.error _ => ⟨false, 0, []⟩
    | Except.ok pages => copyRunOk srcPre dstPre pages copyOk cancelAt arrival

/-! ### Basic lemmas about slicing -/

theorem chunk1000_nil : chunk1000 ([] : List α) = [] := by
  simp [chunk1000]

theorem chunk1000_eq (l : List α) :
    chunk1000 l = if l.isEmpty then [] else l.take 1000 :: chunk1000 (l.drop 1000) := by
  cases l with
  | nil => simp [chunk1000]
  | cons a tl =>
    rw [if_neg (by simp)]
    unfold chunk1000
    have h1 : ((a :: tl).length + 999) / 1000
        = (((a :: tl).drop 1000).length + 999) / 1000 + 1 := by
      simp only [List.length_drop, List.length_cons]
      omega
    rw [h1, List.range_succ_eq_map, List.map_cons, List.map_map]
    simp only [Nat.mul_zero, List.drop_zero]
    congr 1
    apply List.map_congr_left
    intro i hi
    simp only [Function.comp_apply, Nat.succ_eq_add_one, List.drop_drop]
    have h2 : 1000 * (i + 1) = 1000 * i + 1000 := by ring
    rw [h2, Nat.add_comm (1000 * i) 1000]

theorem chunk1000_flatten (l : List α) : (chunk1000 l).flatten = l := by
  cases l with
  | nil => simp [chunk1000_nil]
  | cons a tl =>
    rw [chunk1000_eq, if_neg (by simp)]
    rw [List.flatten_cons, chunk1000_flatten ((a :: tl).drop 1000), List.take_append_drop]
termination_by l.length
decreasing_by
  simp only [List.length_drop, List.length_cons]
  omega

theorem chunk1000_length_le (l : List α) : ∀ b ∈ chunk1000 l, b.length ≤ 1000 := by
  cases l with
  | nil => intro b hb; rw [chunk1000_nil] at hb; simp at hb
  | cons a tl =>
    intro b hb
    rw [chunk1000_eq, if_neg (by simp)] at hb
    rcases List.mem_cons.mp hb with h1 | h2
    · subst h1
      have := List.length_take 1000 (a :: tl)
      omega
    · exact chunk1000_length_le ((a :: tl).drop 1000) b h2
termination_by l.length
decreasing_by
  simp only [List.length_drop, List.length_cons]
  omega

theorem chunk1000_sum_lengths (l : List α) :
    ((chunk1000 l).map List.length).sum = l.length := by
  rw [← List.length_flatten, chunk1000_flatten]

theorem batchesOf_nil (t : P → List WorkItem) : batchesOf t [] = [] := rfl

theorem batchesOf_cons (t : P → List WorkItem) (p : P) (ps : List P) :
    batchesOf t (p :: ps) = chunk1000 (t p) ++ batchesOf t ps := by
  simp [batchesOf]

theorem batchesOf_flatten (t : P → List WorkItem) (pages : List P) :
    (batchesOf t pages).flatten = (pages.map t).flatten := by
  induction pages with
  | nil => rfl
  | cons p ps ih =>
    simp [batchesOf_cons, List.flatten_append, chunk1000_flatten, ih]

theorem batchesOf_length_le (t : P → List WorkItem) (pages : List P) :
    ∀ b ∈ batchesOf t pages, b.length ≤ 1000 := by
  intro b hb
  rcases List.mem_flatten.mp hb with ⟨c, hc, hbc⟩
  rcases List.mem_map.mp hc with ⟨p, _, rfl⟩
  exact chunk1000_length_le (t p) b hbc

theorem batchesOf_sum_lengths (t : P → List WorkItem) (pages : List P) :
    ((batchesOf t pages).map List.length).sum = (pages.map (fun p => (t p).length)).sum := by
  rw [← List.length_flatten, batchesOf_flatten, List.length_flatten, List.map_map]
  rfl

theorem batchesOf_mem_single_page (t : P → List WorkItem) (pages : List P) :
    ∀ b ∈ batchesOf t pages, ∃ p ∈ pages, b ∈ chunk1000 (t p) := by
  intro b hb
  rcases List.mem_flatten.mp hb with ⟨c, hc, hbc⟩
  rcases List.mem_map.mp hc with ⟨p, hp, rfl⟩
  exact ⟨p, hp, hbc⟩

/-! ### The page loop as a fold -/

theorem isCancelled_none (k : Nat) : isCancelled none k = false := rfl

theorem pageStep_eq (t : P → List WorkItem) (s : LoopSt) (p : P) :
    pageStep t s p =
      ⟨s.k + 1, s.pagesProcessed + 1, s.futures ++ chunk1000 (t p)⟩ := by
  unfold pageStep
  split
  next h =>
    have : t p = [] := List.isEmpty_iff.mp h
    simp [this, chunk1000_nil]
  next => rfl

theorem foldl_pageStep (t : P → List WorkItem) (pages : List P) (s : LoopSt) :
    pages.foldl (pageStep t) s =
      ⟨s.k + pages.length, s.pagesProcessed + pages.length,
        s.futures ++ batchesOf t pages⟩ := by
  induction pages generalizing s with
  | nil => simp [batchesOf_nil]
  | cons p ps ih =>
    rw [List.foldl_cons, ih, pageStep_eq]
    simp [batchesOf_cons, List.append_assoc]
    omega

theorem pageLoop_no_cancel (t : P → List WorkItem) (c : Option Nat) (pages : List P)
    (s : LoopSt) (h : ∀ j, j < s.k + pages.length → isCancelled c j = false) :
    pageLoop t c pages s = (false, pages.foldl (pageStep t) s) := by
  induction pages generalizing s with
  | nil => rfl
  | cons p ps ih =>
    rw [pageLoop]
    have hr : isCancelled c s.k = false := by
      apply h
      simp only [List.length_cons]
      omega
    rw [hr]
    simp only [Bool.false_eq_true, if_false, List.foldl_cons]
    apply ih
    intro j hj
    apply h
    rw [pageStep_eq] at hj
    simp only [List.length_cons]
    simp only [] at hj
    omega

theorem pageLoop_cancel_at (t : P → List WorkItem) (cv : Nat) (pages : List P)
    (s : LoopSt) (hk : s.k ≤ cv) (hlt : cv < s.k + pages.length) :
    pageLoop t (some cv) pages s =
      (true, (pages.take (cv - s.k)).foldl (pageStep t) s) := by
  induction pages generalizing s with
  | nil => simp at hlt; omega
  | cons p ps ih =>
    rw [pageLoop]
    by_cases hcv : cv ≤ s.k
    · have heq : cv = s.k := Nat.le_antisymm hcv hk
      have : isCancelled (some cv) s.k = true := by
        simp [isCancelled]
        omega
      rw [this]
      simp [heq]
    · have : isCancelled (some cv) s.k = false := by
        simp [isCancelled]
        omega
      rw [this]
      simp only [Bool.false_eq_true, if_false]
      have hk1 : (pageStep t s p).k ≤ cv := by
        rw [pageStep_eq]
        simp
        omega
      have hlt1 : cv < (pageStep t s p).k + ps.length := by
        rw [pageStep_eq] at hk1 ⊢
        simp at hlt ⊢
        omega
      rw [ih (pageStep t s p) hk1 hlt1]
      obtain ⟨m, hm⟩ : ∃ m, cv - s.k = m + 1 := ⟨cv - s.k - 1, by omega⟩
      have hm1 : cv - (pageStep t s p).k = m := by
        rw [pageStep_eq]
        simp only []
        omega
      have htake : List.take (m + 1) (p :: ps) = p :: List.take m ps := rfl
      rw [hm, hm1, htake, List.foldl_cons]

/-! ### The drain loop -/

theorem drain_no_cancel (store : Store) (c : Option Nat) (arr : List (List WorkItem))
    (k d cb : Nat) (h : ∀ j, j < k + arr.length → isCancelled c j = false) :
    drain store c arr k d cb =
      (false, d + (arr.map (delete_batch store)).sum, cb + arr.length) := by
  induction arr generalizing k d cb with
  | nil => simp [drain]
  | cons b rest ih =>
    rw [drain]
    have hr : isCancelled c k = false := by
      apply h
      simp only [List.length_cons]
      omega
    rw [hr]
    simp only [Bool.false_eq_true, if_false]
    rw [ih]
    · simp only [List.map_cons, List.sum_cons, List.length_cons, Prod.mk.injEq]
      refine ⟨trivial, by omega, by omega⟩
    · intro j hj
      apply h
      simp only [List.length_cons]
      omega

theorem drain_cancel_at (store : Store) (cv : Nat) (arr : List (List WorkItem))
    (k d cb : Nat) (hk : k ≤ cv) (hlt : cv < k + arr.length) :
    (drain store (some cv) arr k d cb).1 = true := by
  induction arr generalizing k d cb with
  | nil => simp at hlt; omega
  | cons b rest ih =>
    rw [drain]
    by_cases hcv : cv ≤ k
    · have : isCancelled (some cv) k = true := by
        simp [isCancelled]
        omega
      rw [this]
      simp
    · have : isCancelled (some cv) k = false := by
        simp [isCancelled]
        omega
      rw [this]
      simp only [Bool.false_eq_true, if_false]
      apply ih
      · omega
      · simp at hlt
        omega

/-! ### Characterisation of whole runs -/

theorem runClean_no_cancel (t : P → List WorkItem) (store : Store) (pages : List P)
    (arrival : List (List WorkItem)) (started : Nat → Bool) (c : Option Nat)
    (h : ∀ j, j < pages.length + arrival.length → isCancelled c j = false) :
    runClean t store (Except.ok pages) c arrival started =
      { success := true,
        deletedCount := (arrival.map (delete_batch store)).sum,
        pagesProcessed := pages.length,
        batchesCreated := (batchesOf t pages).length,
        completedBatches := arrival.length,
        submittedBatches := batchesOf t pages,
        abortedBatches := [],
        finishedBatches := List.range (batchesOf t pages).length } := by
  have hpl := pageLoop_no_cancel t c pages ⟨0, 0, []⟩
    (fun j hj => h j (by simp only [] at hj; omega))
  rw [foldl_pageStep] at hpl
  have hd := drain_no_cancel store c arrival (0 + pages.length) 0 0
    (fun j hj => h j (by omega))
  have hok : runClean t store (Except.ok pages) c arrival started
      = runCleanOk t store pages c arrival started := rfl
  rw [hok]
  simp only [runCleanOk, hpl, hd]
  simp

theorem runClean_none (t : P → List WorkItem) (store : Store) (pages : List P)
    (arrival : List (List WorkItem)) (started : Nat → Bool) :
    runClean t store (Except.ok pages) none arrival started =
      { success := true,
        deletedCount := (arrival.map (delete_batch store)).sum,
        pagesProcessed := pages.length,
        batchesCreated := (batchesOf t pages).length,
        completedBatches := arrival.length,
        submittedBatches := batchesOf t pages,
        abortedBatches := [],
        finishedBatches := List.range (batchesOf t pages).length } :=
  runClean_no_cancel t store pages arrival started none (fun j _ => rfl)

theorem runClean_cancel_page (t : P → List WorkItem) (store : Store) (pages : List P)
    (arrival : List (List WorkItem)) (started : Nat → Bool) (cv : Nat)
    (hlt : cv < pages.length) :
    runClean t store (Except.ok pages) (some cv) arrival started =
      { success := false,
        deletedCount := 0,
        pagesProcessed := cv,
        batchesCreated := (batchesOf t (pages.take cv)).length,
        completedBatches := 0,
        submittedBatches := batchesOf t (pages.take cv),
        abortedBatches :=
          (List.range (batchesOf t (pages.take cv)).length).filter (fun i => !started i),
        finishedBatches :=
          (List.range (batchesOf t (pages.take cv)).length).filter (fun i => started i) } := by
  have hpl := pageLoop_cancel_at t cv pages ⟨0, 0, []⟩ (Nat.zero_le cv)
    (by simp only []; omega)
  rw [foldl_pageStep] at hpl
  have hlen : (pages.take cv).length = cv := by
    rw [List.length_take]
    omega
  have hok : runClean t store (Except.ok pages) (some cv) arrival started
      = runCleanOk t store pages (some cv) arrival started := rfl
  rw [hok]
  simp only [runCleanOk, hpl]
  simp [hlen]

theorem runClean_cancel_drain (t : P → List WorkItem) (store : Store) (pages : List P)
    (arrival : List (List WorkItem)) (started : Nat → Bool) (cv : Nat)
    (hge : pages.length ≤ cv) (hlt : cv < pages.length + arrival.length) :
    (runClean t store (Except.ok pages) (some cv) arrival started).success = false
    ∧ (runClean t store (Except.ok pages) (some cv) arrival started).submittedBatches
        = batchesOf t pages
    ∧ (runClean t store (Except.ok pages) (some cv) arrival started).abortedBatches = []
    ∧ (runClean t store (Except.ok pages) (some cv) arrival started).finishedBatches
        = List.range (batchesOf t pages).length
    ∧ (runClean t store (Except.ok pages) (some cv) arrival started).batchesCreated
        = (batchesOf t pages).length := by
  have hpl := pageLoop_no_cancel t (some cv) pages ⟨0, 0, []⟩
    (by
      intro j hj
      simp only [isCancelled, decide_eq_false_iff_not]
      simp only [] at hj
      omega)
  rw [foldl_pageStep] at hpl
  rcases hd : drain store (some cv) arrival (0 + pages.length) 0 0 with ⟨b, d, cb⟩
  have hb : b = true := by
    have h1 := drain_cancel_at store cv arrival (0 + pages.length) 0 0 (by omega) (by omega)
    rw [hd] at h1
    exact h1
  subst hb
  have hok : runClean t store (Except.ok pages) (some cv) arrival started
      = runCleanOk t store pages (some cv) arrival started := rfl
  rw [hok]
  simp only [runCleanOk, hpl, hd]
  simp

/-! ### Copy-loop lemmas -/

theorem copyStep_k (sp dp : String) (s : CopySt) (page : List String) :
    (copyStep sp dp s page).k = s.k + 1 := by
  unfold copyStep
  split <;> rfl

theorem copyStep_tasks (sp dp : String) (s : CopySt) (page : List String) :
    (copyStep sp dp s page).tasks =
      s.tasks ++ page.map (fun key => (key, dest_key_of sp dp key)) := by
  unfold copyStep
  split
  next h =>
    simp [List.isEmpty_iff.mp h]
  next => rfl

theorem foldl_copyStep_k (sp dp : String) (pages : List (List String)) (s : CopySt) :
    (pages.foldl (copyStep sp dp) s).k = s.k + pages.length := by
  induction pages generalizing s with
  | nil => simp
  | cons p ps ih =>
    rw [List.foldl_cons, ih, copyStep_k]
    simp only [List.length_cons]
    omega

theorem foldl_copyStep_tasks (sp dp : String) (pages : List (List String)) (s : CopySt) :
    (pages.foldl (copyStep sp dp) s).tasks =
      s.tasks ++
        (pages.map (fun page => page.map (fun key => (key, dest_key_of sp dp key)))).flatten := by
  induction pages generalizing s with
  | nil => simp
  | cons p ps ih =>
    rw [List.foldl_cons, ih, copyStep_tasks]
    simp [List.append_assoc]

theorem copyPageLoop_no_cancel (sp dp : String) (c : Option Nat)
    (pages : List (List String)) (s : CopySt)
    (h : ∀ j, j < s.k + pages.length → isCancelled c j = false) :
    copyPageLoop sp dp c pages s = (false, pages.foldl (copyStep sp dp) s) := by
  induction pages generalizing s with
  | nil => rfl
  | cons p ps ih =>
    rw [copyPageLoop]
    have hr : isCancelled c s.k = false := by
      apply h
      simp only [List.length_cons]
      omega
    rw [hr]
    simp only [Bool.false_eq_true, if_false, List.foldl_cons]
    apply ih
    intro j hj
    apply h
    rw [copyStep_k] at hj
    simp only [List.length_cons]
    omega

theorem copyPageLoop_cancel_at (sp dp : String) (cv : Nat)
    (pages : List (List String)) (s : CopySt) (hk : s.k ≤ cv)
    (hlt : cv < s.k + pages.length) :
    (copyPageLoop sp dp (some cv) pages s).1 = true := by
  induction pages generalizing s with
  | nil => simp at hlt; omega
  | cons p ps ih =>
    rw [copyPageLoop]
    by_cases hcv : cv ≤ s.k
    · have : isCancelled (some cv) s.k = true := by
        simp [isCancelled]
        omega
      rw [this]
      simp
    · have : isCancelled (some cv) s.k = false := by
        simp [isCancelled]
        omega
      rw [this]
      simp only [Bool.false_eq_true, if_false]
      apply ih
      · rw [copyStep_k]
        omega
      · rw [copyStep_k]
        simp only [List.length_cons] at hlt
        omega

theorem copyDrain_no_cancel (copyOk : String → Bool) (c : Option Nat)
    (arr : List String) (k cp cc : Nat)
    (h : ∀ j, j < k + arr.length → isCancelled c j = false) :
    (copyDrain copyOk c arr k cp cc).1 = false := by
  induction arr generalizing k cp cc with
  | nil => rfl
  | cons key rest ih =>
    rw [copyDrain]
    have hr : isCancelled c k = false := by
      apply h
      simp only [List.length_cons]
      omega
    rw [hr]
    simp only [Bool.false_eq_true, if_false]
    split
    all_goals
      apply ih
      intro j hj
      apply h
      simp only [List.length_cons]
      omega

theorem copyDrain_cancel_at (copyOk : String → Bool) (cv : Nat)
    (arr : List String) (k cp cc : Nat) (hk : k ≤ cv) (hlt : cv < k + arr.length) :
    (copyDrain copyOk (some cv) arr k cp cc).1 = true := by
  induction arr generalizing k cp cc with
  | nil => simp at hlt; omega
  | cons key rest ih =>
    rw [copyDrain]
    by_cases hcv : cv ≤ k
    · have : isCancelled (some cv) k = true := by
        simp [isCancelled]
        omega
      rw [this]
      simp
    · have : isCancelled (some cv) k = false := by
        simp [isCancelled]
        omega
      rw [this]
      simp only [Bool.false_eq_true, if_false]
      split
      all_goals
        apply ih
        · omega
        · simp only [List.length_cons] at hlt
          omega

/-! ### Further helper lemmas -/

theorem delete_batch_allOk (store : Store)
    (h : ∀ b, store b = Except.ok ⟨b.map WorkItem.key, []⟩) (b : List WorkItem) :
    delete_batch store b = b.length := by
  rw [delete_batch, h]
  simp

theorem sum_map_add (l : List α) (f g : α → Nat) :
    (l.map (fun x => f x + g x)).sum = (l.map f).sum + (l.map g).sum := by
  induction l with
  | nil => rfl
  | cons a tl ih =>
    simp only [List.map_cons, List.sum_cons, ih]
    omega

theorem batchesOf_all_empty (t : P → List WorkItem) (pages : List P)
    (h : ∀ p ∈ pages, t p = []) : batchesOf t pages = [] := by
  induction pages with
  | nil => rfl
  | cons p ps ih =>
    rw [batchesOf_cons, h p (by simp), chunk1000_nil, List.nil_append]
    exact ih (fun q hq => h q (by simp [hq]))

theorem pageLoop_futures_le (t : P → List WorkItem) (c : Option Nat) (pages : List P)
    (s : LoopSt) (hs : ∀ b ∈ s.futures, b.length ≤ 1000) :
    ∀ b ∈ ((pageLoop t c pages s).2).futures, b.length ≤ 1000 := by
  induction pages generalizing s with
  | nil => exact hs
  | cons p ps ih =>
    rw [pageLoop]
    by_cases hc : isCancelled c s.k = true
    · rw [if_pos hc]
      exact hs
    · rw [if_neg hc]
      apply ih
      rw [pageStep_eq]
      intro b hb
      rcases List.mem_append.mp hb with h1 | h2
      · exact hs b h1
      · exact chunk1000_length_le (t p) b h2

theorem runClean_submitted (t : P → List WorkItem) (store : Store) (pages : List P)
    (c : Option Nat) (arrival : List (List WorkItem)) (started : Nat → Bool) :
    (runClean t store (Except.ok pages) c arrival started).submittedBatches
      = ((pageLoop t c pages ⟨0, 0, []⟩).2).futures := by
  have hok : runClean t store (Except.ok pages) c arrival started
      = runCleanOk t store pages c arrival started := rfl
  rw [hok]
  rcases hpl : pageLoop t c pages ⟨0, 0, []⟩ with ⟨fl, st⟩
  cases fl
  · rcases hd : drain store c arrival st.k 0 0 with ⟨dfl, d, cb⟩
    simp only [runCleanOk, hpl, hd]
    cases dfl <;> simp
  · simp only [runCleanOk, hpl]
    simp

theorem copyPageLoop_tasks_inv (sp dp : String) (c : Option Nat)
    (pages : List (List String)) (s : CopySt)
    (hs : ∀ tk ∈ s.tasks, tk.2 = dest_key_of sp dp tk.1) :
    ∀ tk ∈ ((copyPageLoop sp dp c pages s).2).tasks, tk.2 = dest_key_of sp dp tk.1 := by
  induction pages generalizing s with
  | nil => exact hs
  | cons p ps ih =>
    rw [copyPageLoop]
    by_cases hc : isCancelled c s.k = true
    · rw [if_pos hc]
      exact hs
    · rw [if_neg hc]
      apply ih
      rw [copyStep_tasks]
      intro tk htk
      rcases List.mem_append.mp htk with h1 | h2
      · exact hs tk h1
      · rcases List.mem_map.mp h2 with ⟨key, _, rfl⟩
        rfl

theorem copy_tasks_eq (sp dp : String) (pages : List (List String))
    (copyOk : String → Bool) (c : Option Nat) (arrival : List String) :
    (copy_objects true true sp dp (Except.ok pages) copyOk c arrival).tasks
      = ((copyPageLoop sp dp c pages ⟨0, 0, []⟩).2).tasks := by
  have hok : copy_objects true true sp dp (Except.ok pages) copyOk c arrival
      = copyRunOk sp dp pages copyOk c arrival := rfl
  rw [hok]
  rcases hpl : copyPageLoop sp dp c pages ⟨0, 0, []⟩ with ⟨fl, st⟩
  cases fl
  · rcases hd : copyDrain copyOk c arrival st.k 0 0 with ⟨dfl, cp, cc⟩
    simp only [copyRunOk, hpl, hd]
    cases dfl <;> simp
  · simp only [copyRunOk, hpl]
    simp

theorem copy_none_success (sp dp : String) (pages : List (List String))
    (copyOk : String → Bool) (arrival : List String) :
    (copy_objects true true sp dp (Except.ok pages) copyOk none arrival).success = true := by
  have hok : copy_objects true true sp dp (Except.ok pages) copyOk none arrival
      = copyRunOk sp dp pages copyOk none arrival := rfl
  rw [hok]
  have hpl := copyPageLoop_no_cancel sp dp none pages ⟨0, 0, []⟩ (fun j _ => rfl)
  rcases hd : copyDrain copyOk none arrival
    ((pages.foldl (copyStep sp dp) ⟨0, 0, []⟩).k) 0 0 with ⟨dfl, cp, cc⟩
  have hdf : dfl = false := by
    have h1 := copyDrain_no_cancel copyOk none arrival
      ((pages.foldl (copyStep sp dp) ⟨0, 0, []⟩).k) 0 0 (fun j _ => rfl)
    rw [hd] at h1
    exact h1
  subst hdf
  simp only [copyRunOk, hpl, hd]
  simp

theorem copy_cancelled_failure (sp dp : String) (pages : List (List String))
    (copyOk : String → Bool) (arrival : List String) (cv : Nat)
    (hlt : cv < pages.length + arrival.length) :
    (copy_objects true true sp dp (Except.ok pages) copyOk (some cv) arrival).success
      = false := by
  have hok : copy_objects true true sp dp (Except.ok pages) copyOk (some cv) arrival
      = copyRunOk sp dp pages copyOk (some cv) arrival := rfl
  rw [hok]
  by_cases hc : cv < pages.length
  · rcases hpl : copyPageLoop sp dp (some cv) pages ⟨0, 0, []⟩ with ⟨fl, st⟩
    have hf : fl = true := by
      have h1 := copyPageLoop_cancel_at sp dp cv pages ⟨0, 0, []⟩ (Nat.zero_le cv)
        (by simp only []; omega)
      rw [hpl] at h1
      exact h1
    subst hf
    simp only [copyRunOk, hpl]
    simp
  · have hpl := copyPageLoop_no_cancel sp dp (some cv) pages ⟨0, 0, []⟩
      (by
        intro j hj
        simp only [isCancelled, decide_eq_false_iff_not]
        simp only [] at hj
        omega)
    have hk : (pages.foldl (copyStep sp dp) (⟨0, 0, []⟩ : CopySt)).k = pages.length := by
      rw [foldl_copyStep_k]
      simp
    rcases hd : copyDrain copyOk (some cv) arrival
      ((pages.foldl (copyStep sp dp) ⟨0, 0, []⟩).k) 0 0 with ⟨dfl, cp, cc⟩
    have hdf : dfl = true := by
      have h1 := copyDrain_cancel_at copyOk cv arrival
        ((pages.foldl (copyStep sp dp) ⟨0, 0, []⟩).k) 0 0 (by rw [hk]; omega)
        (by rw [hk]; omega)
      rw [hd] at h1
      exact h1
    subst hdf
    simp only [copyRunOk, hpl, hd]
    simp

theorem chunk1000_subset (l : List α) (b : List α) (hb : b ∈ chunk1000 l) :
    ∀ x ∈ b, x ∈ l := by
  intro x hx
  have hm : x ∈ (chunk1000 l).flatten := List.mem_flatten.mpr ⟨b, hb, hx⟩
  rwa [chunk1000_flatten] at hm

theorem runClean_cancel_fields (t : P → List WorkItem) (store : Store)
    (pages : List P) (arrival : List (List WorkItem)) (started : Nat → Bool)
    (cv : Nat) :
    ((runClean t store (Except.ok pages) (some cv) arrival started).submittedBatches
        = batchesOf t (pages.take cv))
    ∧ (∀ i ∈ (runClean t store (Except.ok pages) (some cv) arrival
          started).abortedBatches, started i = false)
    ∧ (∀ i, i < (runClean t store (Except.ok pages) (some cv) arrival
          started).batchesCreated → started i = true →
        i ∈ (runClean t store (Except.ok pages) (some cv) arrival
          started).finishedBatches) := by
  by_cases h1 : cv < pages.length
  · rw [runClean_cancel_page t store pages arrival started cv h1]
    refine ⟨rfl, ?_, ?_⟩
    · intro i hi
      have h2 := (List.mem_filter.mp hi).2
      simpa using h2
    · intro i hilt hist
      exact List.mem_filter.mpr ⟨List.mem_range.mpr hilt, hist⟩
  · have htake : pages.take cv = pages := List.take_of_length_le (by omega)
    by_cases h2 : cv < pages.length + arrival.length
    · obtain ⟨hs, hsub, hab, hfin, hbc⟩ :=
        runClean_cancel_drain t store pages arrival started cv (by omega) h2
      rw [htake]
      refine ⟨hsub, ?_, ?_⟩
      · intro i hi
        rw [hab] at hi
        simp at hi
      · intro i hilt hist
        rw [hfin]
        rw [hbc] at hilt
        exact List.mem_range.mpr hilt
    · rw [runClean_no_cancel t store pages arrival started (some cv)
        (by intro j hj; simp only [isCancelled, decide_eq_false_iff_not]; omega), htake]
      refine ⟨rfl, ?_, ?_⟩
      · intro i hi
        simp at hi
      · intro i hilt hist
        exact List.mem_range.mpr hilt

/-! ### The claims -/

/-- C1: for a non-versioned bucket with any page layout, with every store call
succeeding and no cancellation, `Clean` returns Success and deletes exactly
the total number N of listed objects; when every page is empty (N = 0) it
still returns Success with 0 deletions and 0 batches created. -/
theorem clean_nonversioned_deletes_all (store : Store) (pages : List (List String))
    (arrival : List (List WorkItem)) (started : Nat → Bool)
    (hstore : ∀ b, store b = Except.ok ⟨b.map WorkItem.key, []⟩)
    (harr : arrival.Perm (batchesOf nvItems pages)) :
    (runClean nvItems store (Except.ok pages) none arrival started).success = true
    ∧ (runClean nvItems store (Except.ok pages) none arrival started).deletedCount
        = (pages.map List.length).sum
    ∧ ((∀ p ∈ pages, p = []) →
        (runClean nvItems store (Except.ok pages) none arrival started).deletedCount = 0
        ∧ (runClean nvItems store (Except.ok pages) none arrival started).batchesCreated
            = 0) := by
  rw [runClean_none]
  have hsum : (arrival.map (delete_batch store)).sum = (pages.map List.length).sum := by
    rw [(harr.map (delete_batch store)).sum_eq,
      List.map_congr_left (fun b _ => delete_batch_allOk store hstore b),
      batchesOf_sum_lengths]
    exact congrArg List.sum (List.map_congr_left (fun p _ => by simp [nvItems]))
  refine ⟨rfl, hsum, ?_⟩
  intro hall
  have hb : batchesOf nvItems pages = [] :=
    batchesOf_all_empty nvItems pages (fun p hp => by rw [hall p hp]; rfl)
  have ha : arrival = [] := by
    rw [hb] at harr
    exact harr.eq_nil
  subst ha
  simp [hb]

/-- Witness for C1: a bucket with one page of two objects followed by an empty
page is fully deleted with Success. -/
theorem clean_nonversioned_deletes_all_witness :
    (∀ b, storeAllOk b = Except.ok ⟨b.map WorkItem.key, []⟩)
    ∧ (runClean nvItems storeAllOk (Except.ok [["a", "b"], []]) none
        [[⟨"a", none⟩, ⟨"b", none⟩]] (fun _ => true)).success = true
    ∧ (runClean nvItems storeAllOk (Except.ok [["a", "b"], []]) none
        [[⟨"a", none⟩, ⟨"b", none⟩]] (fun _ => true)).deletedCount = 2 := by
  have h := clean_nonversioned_deletes_all storeAllOk [["a", "b"], []]
    [[⟨"a", none⟩, ⟨"b", none⟩]] (fun _ => true) (fun b => rfl) (by decide)
  exact ⟨fun b => rfl, h.1, by rw [h.2.1]; decide⟩

/-- C2: every batch submitted to the store's multi-delete call, on any run of
either the non-versioned or the versioned path (any listing, any cancellation
schedule), holds at most 1000 work items. -/
theorem batch_size_le_1000 (store : Store)
    (listing : Except String (List (List String)))
    (vlisting : Except String (List VPage)) (c c' : Option Nat)
    (arrival varrival : List (List WorkItem)) (started started' : Nat → Bool)
    (b b' : List WorkItem) :
    (b ∈ (runClean nvItems store listing c arrival started).submittedBatches →
      b.length ≤ 1000)
    ∧ (b' ∈ (runClean vItems store vlisting c' varrival started').submittedBatches →
      b'.length ≤ 1000) := by
  constructor
  · intro hb
    cases listing with
    | error e => simp [runClean] at hb
    | ok pages =>
      rw [runClean_submitted] at hb
      exact pageLoop_futures_le nvItems c pages ⟨0, 0, []⟩
        (by intro x hx; simp at hx) b hb
  · intro hb
    cases vlisting with
    | error e => simp [runClean] at hb
    | ok vpages =>
      rw [runClean_submitted] at hb
      exact pageLoop_futures_le vItems c' vpages ⟨0, 0, []⟩
        (by intro x hx; simp at hx) b' hb

/-- Witness for C2: concrete one-item batches of both paths are within the
1000-item limit. -/
theorem batch_size_le_1000_witness :
    ([⟨"x", none⟩] : List WorkItem).length ≤ 1000
    ∧ ([⟨"k", some "v"⟩] : List WorkItem).length ≤ 1000 := by
  have h := batch_size_le_1000 storeAllOk (Except.ok [["x"]])
    (Except.ok [⟨[("k", "v")], []⟩]) none none [] [] (fun _ => true) (fun _ => true)
    [⟨"x", none⟩] [⟨"k", some "v"⟩]
  exact ⟨h.1 (by decide), h.2 (by decide)⟩

/-- C3: destination-key derivation in `copy_objects` is the pure deterministic
function of (srcPrefix, dstPrefix, srcKey) the spec describes: it agrees with
the spec-modelled `destKeySpec` on normalised prefixes, maps the quoted
instance `("a/b", "x/y", "a/b/c.txt")` to `"x/y/c.txt"`, is the identity when
both prefixes are empty, and every copy task submitted by `copy_objects`
carries exactly this destination key for its source key. -/
theorem dest_key_derivation :
    (∀ sp dp k, dest_key_of sp dp k = destKeySpec (pyStrip sp) (pyStrip dp) k)
    ∧ dest_key_of "a/b" "x/y" "a/b/c.txt" = "x/y/c.txt"
    ∧ (∀ k, dest_key_of "" "" k = k)
    ∧ (∀ sp dp copyOk c arr pages tk,
        tk ∈ (copy_objects true true sp dp (Except.ok pages) copyOk c arr).tasks →
        tk.2 = dest_key_of sp dp tk.1) := by
  refine ⟨?_, by decide, ?_, ?_⟩
  · intro sp dp k
    by_cases h1 : pyStrip sp = "" <;> by_cases h2 : pyStrip dp = "" <;>
      simp [dest_key_of, destKeySpec, h1, h2]
  · intro k
    have h0 : pyStrip "" = "" := rfl
    simp [dest_key_of, h0]
  · intro sp dp copyOk c arr pages tk htk
    rw [copy_tasks_eq] at htk
    exact copyPageLoop_tasks_inv sp dp c pages ⟨0, 0, []⟩
      (by intro x hx; simp at hx) tk htk

/-- Witness for C3 on the spec's copy scenario: the task submitted for
`logs/2023/01/a.log` under prefixes `logs/2023` → `archive` carries the
derived destination key. -/
theorem dest_key_derivation_witness :
    (("logs/2023/01/a.log", "archive/01/a.log") : String × String).2
      = dest_key_of "logs/2023" "archive"
          (("logs/2023/01/a.log", "archive/01/a.log") : String × String).1 :=
  dest_key_derivation.2.2.2 "logs/2023" "archive" (fun _ => true) none []
    [["logs/2023/01/a.log"]] ("logs/2023/01/a.log", "archive/01/a.log") (by decide)

/-- C4 counterexample: two consecutive pages each yielding fewer than 1000
items (one item each) produce two separate one-item batches — the leftover of
the first page is never merged with the second page's items, so no batch ever
contains items from more than one page. -/
theorem batches_never_span_pages_cex :
    (runClean nvItems storeAllOk (Except.ok [["a"], ["b"]]) none
        [[⟨"a", none⟩], [⟨"b", none⟩]] (fun _ => true)).submittedBatches
      = [[⟨"a", none⟩], [⟨"b", none⟩]]
    ∧ (runClean nvItems storeAllOk (Except.ok [["a"], ["b"]]) none
        [[⟨"a", none⟩], [⟨"b", none⟩]] (fun _ => true)).batchesCreated = 2 := by
  constructor
  · decide
  · decide

/-- C4 (amended): for deletion the scheduler accumulates each page's work items
into slices of at most 1000 and submits one batch per slice as the page is
processed; every submitted batch is a slice of a single page — a page's
leftover items (fewer than 1000) form their own batch and are never combined
with another page's items. -/
theorem batches_single_page (store : Store) (pages : List (List String))
    (vpages : List VPage) (arrival varr : List (List WorkItem)) (started : Nat → Bool) :
    ((runClean nvItems store (Except.ok pages) none arrival started).submittedBatches
        = batchesOf nvItems pages)
    ∧ (∀ b ∈ (runClean nvItems store (Except.ok pages) none arrival started).submittedBatches,
        ∃ p ∈ pages, b ∈ chunk1000 (nvItems p))
    ∧ (∀ b ∈ (runClean vItems store (Except.ok vpages) none varr started).submittedBatches,
        ∃ p ∈ vpages, b ∈ chunk1000 (vItems p)) := by
  rw [runClean_none nvItems store pages arrival started,
    runClean_none vItems store vpages varr started]
  exact ⟨rfl, batchesOf_mem_single_page nvItems pages,
    batchesOf_mem_single_page vItems vpages⟩

/-- Witness for C4 (amended): the single batch of a concrete run indeed comes
from one page. -/
theorem batches_single_page_witness :
    ∃ p ∈ [["u"], ["v"]], ([⟨"u", none⟩] : List WorkItem) ∈ chunk1000 (nvItems p) :=
  (batches_single_page storeAllOk [["u"], ["v"]] [] [] [] (fun _ => true)).2.1
    [⟨"u", none⟩] (by decide)

/-- C5: the versioned path flattens each page's `Versions` entries followed by
its `DeleteMarkers` entries into work items that all carry a version id, and
with a fully succeeding store and no cancellation the total number of
deletions equals the versions count plus the delete-markers count that
`count_objects` reports for the same (versioning-enabled) bucket. -/
theorem versioned_clean_counts (store : Store) (vpages : List VPage)
    (plainPages : List (List String)) (arrival : List (List WorkItem))
    (started : Nat → Bool)
    (hstore : ∀ b, store b = Except.ok ⟨b.map WorkItem.key, []⟩)
    (harr : arrival.Perm (batchesOf vItems vpages)) :
    (runClean vItems store (Except.ok vpages) none arrival started).success = true
    ∧ (runClean vItems store (Except.ok vpages) none arrival started).submittedBatches.flatten
        = (vpages.map (fun p =>
            p.versions.map (fun v => (⟨v.1, some v.2⟩ : WorkItem))
              ++ p.deleteMarkers.map (fun m => (⟨m.1, some m.2⟩ : WorkItem)))).flatten
    ∧ (∀ b ∈ (runClean vItems store (Except.ok vpages) none arrival started).submittedBatches,
        ∀ it ∈ b, it.versionId.isSome = true)
    ∧ (runClean vItems store (Except.ok vpages) none arrival started).deletedCount
        = (count_objects plainPages (Except.ok (some "Enabled")) vpages).versions
          + (count_objects plainPages (Except.ok (some "Enabled")) vpages).delete_markers := by
  rw [runClean_none]
  refine ⟨rfl, ?_, ?_, ?_⟩
  · rw [batchesOf_flatten]
    rfl
  · intro b hb it hit
    rcases batchesOf_mem_single_page vItems vpages b hb with ⟨p, _, hbp⟩
    have hit2 : it ∈ vItems p := chunk1000_subset (vItems p) b hbp it hit
    rcases List.mem_append.mp hit2 with h1 | h1 <;>
      rcases List.mem_map.mp h1 with ⟨x, _, rfl⟩ <;> rfl
  · rw [(harr.map (delete_batch store)).sum_eq,
      List.map_congr_left (fun b _ => delete_batch_allOk store hstore b),
      batchesOf_sum_lengths,
      List.map_congr_left (fun (p : VPage) _ =>
        (by simp [vItems] :
          (vItems p).length = p.versions.length + p.deleteMarkers.length)),
      sum_map_add]
    simp [count_objects, is_versioned]

/-- Witness for C5: ten-ish items in miniature — one page with two versions and
one delete marker is deleted as 2 + 1 = 3 items. -/
theorem versioned_clean_counts_witness :
    (runClean vItems storeAllOk
        (Except.ok [⟨[("k", "v1"), ("k", "v2")], [("k", "m1")]⟩]) none
        [[⟨"k", some "v1"⟩, ⟨"k", some "v2"⟩, ⟨"k", some "m1"⟩]]
        (fun _ => true)).deletedCount = 3 := by
  have h := versioned_clean_counts storeAllOk
    [⟨[("k", "v1"), ("k", "v2")], [("k", "m1")]⟩] []
    [[⟨"k", some "v1"⟩, ⟨"k", some "v2"⟩, ⟨"k", some "m1"⟩]]
    (fun _ => true) (fun b => rfl) (by decide)
  rw [h.2.2.2]
  decide

/-- C6 counterexample: pages `[["a"], ["b"]]`, cancellation first reads true at
the second page checkpoint (after K = 1 batch has been submitted), and the
submitted batch has not yet started: `future.cancel()` aborts it, so an
already-submitted batch does not run to completion. -/
theorem cancel_aborts_pending_cex :
    (runClean nvItems storeAllOk (Except.ok [["a"], ["b"]]) (some 1) []
        (fun _ => false)).submittedBatches = [[⟨"a", none⟩]]
    ∧ (runClean nvItems storeAllOk (Except.ok [["a"], ["b"]]) (some 1) []
        (fun _ => false)).abortedBatches = [0]
    ∧ (runClean nvItems storeAllOk (Except.ok [["a"], ["b"]]) (some 1) []
        (fun _ => false)).finishedBatches = []
    ∧ (runClean nvItems storeAllOk (Except.ok [["a"], ["b"]]) (some 1) []
        (fun _ => false)).success = false := by
  refine ⟨by decide, by decide, by decide, by decide⟩

/-- C6 (amended): on any run of `Clean` — non-versioned or versioned page
loop — cancelled at checkpoint `cv`, no batch is submitted after that
checkpoint (the submitted batches are exactly those of the pages processed
before it); a pending batch is aborted only if it had not started; and every
batch that had started runs to completion. -/
theorem cancel_preserves_running (store : Store) (pages : List (List String))
    (vpages : List VPage) (arrival varr : List (List WorkItem))
    (started started' : Nat → Bool) (cv cv' : Nat) :
    (((runClean nvItems store (Except.ok pages) (some cv) arrival started).submittedBatches
        = batchesOf nvItems (pages.take cv))
      ∧ (∀ i ∈ (runClean nvItems store (Except.ok pages) (some cv) arrival
            started).abortedBatches, started i = false)
      ∧ (∀ i, i < (runClean nvItems store (Except.ok pages) (some cv) arrival
            started).batchesCreated → started i = true →
          i ∈ (runClean nvItems store (Except.ok pages) (some cv) arrival
            started).finishedBatches))
    ∧ (((runClean vItems store (Except.ok vpages) (some cv') varr started').submittedBatches
        = batchesOf vItems (vpages.take cv'))
      ∧ (∀ i ∈ (runClean vItems store (Except.ok vpages) (some cv') varr
            started').abortedBatches, started' i = false)
      ∧ (∀ i, i < (runClean vItems store (Except.ok vpages) (some cv') varr
            started').batchesCreated → started' i = true →
          i ∈ (runClean vItems store (Except.ok vpages) (some cv') varr
            started').finishedBatches)) :=
  ⟨runClean_cancel_fields nvItems store pages arrival started cv,
    runClean_cancel_fields vItems store vpages varr started' cv'⟩

/-- Witness for C6 (amended) on concrete cancelled runs of both paths: the
aborted batch had not started, and only the first page's batch was ever
submitted. -/
theorem cancel_preserves_running_witness :
    ((fun _ : Nat => false) 0 = false)
    ∧ (runClean nvItems storeAllOk (Except.ok [["c"], ["d"]]) (some 1) []
        (fun _ => false)).submittedBatches = batchesOf nvItems [["c"]]
    ∧ (runClean vItems storeAllOk
        (Except.ok [⟨[("k", "v")], []⟩, ⟨[("k2", "v2")], []⟩]) (some 1) []
        (fun _ => false)).submittedBatches = batchesOf vItems [⟨[("k", "v")], []⟩] := by
  have h := cancel_preserves_running storeAllOk [["c"], ["d"]]
    [⟨[("k", "v")], []⟩, ⟨[("k2", "v2")], []⟩] [] [] (fun _ => false) (fun _ => false) 1 1
  exact ⟨h.1.2.1 0 (by decide), h.1.1, h.2.1⟩

/-- C7 counterexample: `clean_bucket` returns a plain boolean; a run cancelled
at the first checkpoint returns `false` and a run whose listing raises returns
`false` — the same value, so the caller cannot tell Cancelled from Failed from
the return value. -/
theorem cancel_failed_same_return_cex :
    clean_bucket true (Except.ok none) storeAllOk (Except.ok [["a"]]) (Except.ok [])
        (some 0) [] [] (fun _ => false) = false
    ∧ clean_bucket true (Except.ok none) storeAllOk (Except.error "err") (Except.ok [])
        none [] [] (fun _ => false) = false
    ∧ clean_bucket true (Except.ok none) storeAllOk (Except.ok [["a"]]) (Except.ok [])
        (some 0) [] [] (fun _ => false)
      = clean_bucket true (Except.ok none) storeAllOk (Except.error "err")
        (Except.ok []) none [] [] (fun _ => false) := by
  refine ⟨by decide, by decide, by decide⟩

/-- C7 (amended): the public operations return a boolean in which only Success
is distinguishable: a run that observed cancellation at a checkpoint returns
`False`, and a run whose listing fails returns `False` as well, for both
`Clean` and `Copy`; the cancellation/failure distinction appears only in the
progress messages, not in the return value. -/
theorem cancel_and_failure_return_false (t : P → List WorkItem) (store : Store)
    (e : String) (pages : List P) (arrival : List (List WorkItem))
    (started : Nat → Bool) (cv : Nat) (sp dp : String) (copyOk : String → Bool)
    (ce : String) (cpages : List (List String)) (carr : List String) (ccv : Nat) :
    (runClean t store (Except.error e) (some cv) arrival started).success = false
    ∧ (cv < pages.length + arrival.length →
        (runClean t store (Except.ok pages) (some cv) arrival started).success = false)
    ∧ (copy_objects true true sp dp (Except.error ce) copyOk (some ccv) carr).success
        = false
    ∧ (ccv < cpages.length + carr.length →
        (copy_objects true true sp dp (Except.ok cpages) copyOk (some ccv) carr).success
          = false) := by
  refine ⟨rfl, ?_, rfl, ?_⟩
  · intro hlt
    by_cases h1 : cv < pages.length
    · rw [runClean_cancel_page t store pages arrival started cv h1]
    · exact (runClean_cancel_drain t store pages arrival started cv (by omega) hlt).1
  · exact copy_cancelled_failure sp dp cpages copyOk carr ccv

/-- Witness for C7 (amended): concrete cancelled clean and copy runs both
return `false`. -/
theorem cancel_and_failure_return_false_witness :
    ((0 : Nat) < ([["w"]] : List (List String)).length + ([] : List (List WorkItem)).length)
    ∧ (runClean nvItems storeAllOk (Except.ok [["w"]]) (some 0) []
        (fun _ => true)).success = false
    ∧ ((1 : Nat) < ([["p"], ["q"]] : List (List String)).length + ([] : List String).length)
    ∧ (copy_objects true true "s" "d" (Except.ok [["p"], ["q"]]) (fun _ => true)
        (some 1) []).success = false := by
  have h := cancel_and_failure_return_false nvItems storeAllOk "e" [["w"]] []
    (fun _ => true) 0 "s" "d" (fun _ => true) "ce" [["p"], ["q"]] [] 1
  exact ⟨by decide, h.2.1 (by decide), by decide, h.2.2.2 (by decide)⟩

/-- C8: with no cancellation and successful pagination, the final outcome is
Success for both `Clean` paths and for `Copy` whatever the per-item results —
item failures are recorded and logged but never flip the outcome. -/
theorem item_errors_keep_success (store : Store) (pages : List (List String))
    (vpages : List VPage) (arrival varr : List (List WorkItem)) (started : Nat → Bool)
    (sp dp : String) (copyOk : String → Bool) (cpages : List (List String))
    (carr : List String) :
    (runClean nvItems store (Except.ok pages) none arrival started).success = true
    ∧ (runClean vItems store (Except.ok vpages) none varr started).success = true
    ∧ (copy_objects true true sp dp (Except.ok cpages) copyOk none carr).success = true := by
  refine ⟨?_, ?_, copy_none_success sp dp cpages copyOk carr⟩
  · rw [runClean_none]
  · rw [runClean_none]

/-- C9: an uncancelled run that reaches the end of the drain has processed one
completion per submitted future: completedBatches equals batchesCreated, on
both paths. -/
theorem completed_eq_created (store : Store) (pages : List (List String))
    (vpages : List VPage) (arrival varr : List (List WorkItem)) (started : Nat → Bool)
    (hlen : arrival.length = (batchesOf nvItems pages).length)
    (hvlen : varr.length = (batchesOf vItems vpages).length) :
    ((runClean nvItems store (Except.ok pages) none arrival started).completedBatches
      = (runClean nvItems store (Except.ok pages) none arrival started).batchesCreated)
    ∧ ((runClean vItems store (Except.ok vpages) none varr started).completedBatches
      = (runClean vItems store (Except.ok vpages) none varr started).batchesCreated) := by
  rw [runClean_none nvItems store pages arrival started,
    runClean_none vItems store vpages varr started]
  exact ⟨hlen, hvlen⟩

/-- Witness for C9 on a concrete uncancelled run with one batch per path. -/
theorem completed_eq_created_witness :
    (runClean nvItems storeAllOk (Except.ok [["m", "n"]]) none
        [[⟨"m", none⟩, ⟨"n", none⟩]] (fun _ => true)).completedBatches
      = (runClean nvItems storeAllOk (Except.ok [["m", "n"]]) none
        [[⟨"m", none⟩, ⟨"n", none⟩]] (fun _ => true)).batchesCreated := by
  have h := completed_eq_created storeAllOk [["m", "n"]] []
    [[⟨"m", none⟩, ⟨"n", none⟩]] [] (fun _ => true) (by decide) (by decide)
  exact h.1

/-- C10: a failing versioning probe (`get_bucket_versioning` raising) makes
`is_versioned` report `false`, so `clean_bucket` silently proceeds down the
plain non-versioned path and — with healthy listing and no cancellation —
still returns Success; the probe error alone never yields a failed outcome. -/
theorem versioning_error_nonversioned_path (e : String) (store : Store)
    (pages : List (List String)) (vlisting : Except String (List VPage))
    (arrival varr : List (List WorkItem)) (started : Nat → Bool) :
    is_versioned (Except.error e) = false
    ∧ clean_bucket true (Except.error e) store (Except.ok pages) vlisting none
        arrival varr started
      = (runClean nvItems store (Except.ok pages) none arrival started).success
    ∧ clean_bucket true (Except.error e) store (Except.ok pages) vlisting none
        arrival varr started = true := by
  refine ⟨rfl, rfl, ?_⟩
  have h : clean_bucket true (Except.error e) store (Except.ok pages) vlisting none
      arrival varr started
      = (runClean nvItems store (Except.ok pages) none arrival started).success := rfl
  rw [h, runClean_none]

end CleanAwsS3
